import Mathlib

/-!
Verification of the regulatory-GPS crawler and store.

A shallow embedding, in Lean 4, of the generic breadth-first crawler and the
persistence layer of the repository (files `crawler_scrapper.py`,
`scrapper.py`, `search_all.py`,
`Data_ingestion_and_sources/functions/utils.py`), together with theorems
settling the specification's claims about them.

External collaborators (HTTP transport, BeautifulSoup HTML parsing, pdfminer
PDF extraction, `urllib.parse`) are modelled as opaque function parameters
gathered in an `Env` record; all control flow of the repository's own code is
translated statement by statement.
-/

namespace RegGPS

/-! ## String helpers

Python's `"pat" in s` substring test, modelled over character lists. -/

/-- Decides whether `pat` starts `s` (character lists). -/
def listStarts : List Char → List Char → Bool
  | _, [] => true
  | [], _ :: _ => false
  | a :: s, b :: p => a = b && listStarts s p

/-- Decides whether `pat` occurs somewhere in `s` (character lists). -/
def listOccurs : List Char → List Char → Bool
  | [], pat => listStarts [] pat
  | s@(_ :: rest), pat => listStarts s pat || listOccurs rest pat

/-- Python `pat in s` for strings: substring containment. -/
def strMem (s pat : String) : Bool :=
  listOccurs s.toList pat.toList

/-- Python `str.lower` (ASCII case folding — also what SQLite's `LIKE`
uses). -/
def strLower (s : String) : String := ⟨s.data.map Char.toLower⟩

/-- Python `str.startswith`. -/
def strStartsWith (s pat : String) : Bool := listStarts s.data pat.data

/-- Python `str.endswith`. -/
def strEndsWith (s pat : String) : Bool :=
  listStarts s.data.reverse pat.data.reverse

/-- Python `str.strip()`: whitespace removed from both ends. -/
def strStrip (s : String) : String :=
  ⟨((s.data.dropWhile Char.isWhitespace).reverse.dropWhile
      Char.isWhitespace).reverse⟩

/-- SQL `substr(col, 1, n)`: the first `n` characters. -/
def strTake (s : String) (n : Nat) : String := ⟨s.data.take n⟩

/-! ## HTTP fetch model (`crawler_scrapper.fetch_url`)

`requests.get` is modelled as a partial map from URL to a `Response`;
`none` stands for a raised `requests.RequestException`. The response body is
a single string standing both for `resp.content` (raw bytes) and `resp.text`
(decoded text): the distinction never matters for the claims, and the `%PDF`
magic is ASCII, hence preserved. -/

structure Response where
  status : Nat
  contentType : String
  body : String
  deriving DecidableEq, Repr

/-- The quadruple `(html_text, pdf_bytes, status_code, content_type)`
returned by `fetch_url`. -/
structure FetchOutcome where
  htmlText : Option String
  pdfBytes : Option String
  status : Option Nat
  contentType : Option String
  deriving DecidableEq, Repr

/-- Model of `crawler_scrapper.is_pdf_url`: `url.lower().endswith(".pdf")`. -/
def isPdfUrl (url : String) : Bool :=
  strEndsWith (strLower url) ".pdf"

/-- Model of `crawler_scrapper.fetch_url`, statement by statement.
`net url = none` models a `requests.RequestException`. -/
def fetchUrl (net : String → Option Response) (url : String) : FetchOutcome :=
  match net url with
  | none => ⟨none, none, none, none⟩
  | some resp =>
    let status := resp.status
    let ctype := strLower resp.contentType
    if ¬ (200 ≤ status ∧ status < 300) then
      ⟨none, none, some status, some ctype⟩
    else if strMem ctype "application/pdf" || isPdfUrl url then
      ⟨none, some resp.body, some status, some ctype⟩
    else
      -- `html = resp.text or ""`: the HTML slot always gets a string here
      ⟨some resp.body, none, some status, some ctype⟩

/-! ## Crawler environment and configuration -/

/-- External collaborators of `crawl_generic`, per the spec's component
boundaries: network transport, BeautifulSoup-based HTML extraction
(`extract_html_text` seen abstractly as `html ↦ ((title, text), links)`),
pdfminer PDF extraction (`extract_pdf_text`, `bytes ↦ text`, failures
already mapped to `""` inside it), and `urllib.parse`'s `urljoin` /
`urlparse` (scheme and netloc projections; `urlparse` does not raise on
ordinary strings, so they are total here). -/
structure Env where
  net : String → Option Response
  extractHtml : String → (String × String) × List String
  extractPdf : String → String
  urljoin : String → String → String
  urlScheme : String → String
  urlHost : String → String

/-- Model of `crawler_scrapper.CrawlerConfig` (the dataclass). Depth and budget are
naturals: every configuration in the source instantiates them with
non-negative literals. -/
structure CrawlerConfig where
  name : String
  jurisdiction : String
  source : String
  start_urls : List String
  allowed_domains : List String
  max_depth : Nat := 2
  max_pages : Nat := 100
  extra_pdf_urls : List String := []
  deriving DecidableEq, Repr

/-- The argument tuple of a `save_document` call made by `crawl_generic`
(the `fetched_at` wall-clock timestamp is external and omitted). -/
structure Doc where
  jurisdiction : String
  source : String
  celex : Option String := none
  law_id : Option String := none
  title : String
  text : String
  raw_json : Option String := none
  is_pdf : Bool
  url : String
  content_type : Option String
  status_code : Option Nat
  deriving DecidableEq, Repr

/-- The mutable state of one `crawl_generic` run: the `visited` set, the
BFS deque of `(url, depth)` pairs (pop at the head, push at the tail), the
sequence of persisted documents, the `pages_saved` counter, and a log of
the URLs passed to `fetch_url`, in call order. -/
structure CrawlState where
  visited : List String
  queue : List (String × Nat)
  saved : List Doc
  pages_saved : Nat
  fetchLog : List String
  deriving DecidableEq, Repr

/-! ## Crawler helpers -/

/-- Model of `crawler_scrapper.normalize_url`. -/
def normalizeUrl (env : Env) (base href : String) : Option String :=
  let href := strStrip href
  if href = "" then none
  else if strStartsWith href "#" then none
  else some (env.urljoin base href)

/-- Model of `crawler_scrapper.should_follow`. -/
def shouldFollow (env : Env) (url : String) (allowed_domains : List String) : Bool :=
  if ¬ strStartsWith (env.urlScheme url) "http" then false
  else
    let domain := strLower (env.urlHost url)
    allowed_domains.any (fun d => strEndsWith domain (strLower d))

/-- Scan for `rsplit`: keep the characters seen since the last `/`. -/
def lastSegmentAux : List Char → List Char → List Char
  | [], acc => acc.reverse
  | c :: cs, acc =>
    if c = '/' then lastSegmentAux cs [] else lastSegmentAux cs (c :: acc)

/-- Python `url.rsplit("/", 1)[-1]`: the part after the last `/`
(the whole string when there is none). -/
def lastSegment (url : String) : String :=
  ⟨lastSegmentAux url.data []⟩

/-! ## `crawl_generic` -/

/-- Phase 2.1 of `crawl_generic`: one iteration of the explicit direct-PDF
loop, for a single `pdf_url`. Note the loop runs before the BFS and checks
no page budget. -/
def processExtraPdf (env : Env) (cfg : CrawlerConfig) (s : CrawlState)
    (pdf_url : String) : CrawlState :=
  if pdf_url ∈ s.visited then s
  else
    let s := { s with visited := pdf_url :: s.visited }
    let out := fetchUrl env.net pdf_url
    let s := { s with fetchLog := s.fetchLog ++ [pdf_url] }
    match out.pdfBytes with
    | none => s
    | some pdf_bytes =>
      -- `if not pdf_bytes: continue` also skips empty byte strings
      if pdf_bytes = "" then s
      else
        let text := env.extractPdf pdf_bytes
        if text = "" then s
        else
          let title := lastSegment pdf_url
          { s with
            saved := s.saved ++ [{ jurisdiction := cfg.jurisdiction,
                                   source := cfg.source, title := title,
                                   text := text, is_pdf := true, url := pdf_url,
                                   status_code := out.status,
                                   content_type := out.contentType }],
            pages_saved := s.pages_saved + 1 }

/-- The link-enqueueing loop at the bottom of a BFS iteration (run only when
`depth < cfg.max_depth`): normalise each href against the current page,
keep it only if `should_follow` accepts it and it is not yet visited, and
append it to the queue at `depth + 1`. -/
def enqueueLinks (env : Env) (cfg : CrawlerConfig) (url : String) (depth : Nat)
    (links : List String) (s : CrawlState) : CrawlState :=
  links.foldl
    (fun s href =>
      match normalizeUrl env url href with
      | none => s
      | some new_url =>
        if ¬ shouldFollow env new_url cfg.allowed_domains then s
        else if new_url ∈ s.visited then s
        else { s with queue := s.queue ++ [(new_url, depth + 1)] })
    s

/-- The body of one BFS iteration of `crawl_generic`, from the point where
the dequeued `url` has passed the visited check: mark it visited, fetch it,
dispatch on the outcome (fetch failure / PDF / HTML), persist when there is
extractable text, and, for an HTML page at `depth < max_depth`, enqueue its
links. Every Python `continue` is a plain return of the current state. -/
def crawlVisit (env : Env) (cfg : CrawlerConfig) (url : String) (depth : Nat)
    (s : CrawlState) : CrawlState :=
  let s := { s with visited := url :: s.visited }
  let out := fetchUrl env.net url
  let s := { s with fetchLog := s.fetchLog ++ [url] }
  match out.status with
  | none => s
  | some status =>
    match out.pdfBytes with
    | some pdf_bytes =>
      -- PDF case (`pdf_bytes is not None`): extract, maybe save, continue
      let text := env.extractPdf pdf_bytes
      if text = "" then s
      else
        { s with
          saved := s.saved ++ [{ jurisdiction := cfg.jurisdiction,
                                 source := cfg.source,
                                 title := lastSegment url,
                                 text := text, is_pdf := true, url := url,
                                 status_code := some status,
                                 content_type := out.contentType }],
          pages_saved := s.pages_saved + 1 }
    | none =>
      match out.htmlText with
      | none => s
      | some html =>
        -- `if not html_text: continue` also skips the empty string
        if html = "" then s
        else
          let ((title, content), links) := env.extractHtml html
          let s :=
            if content = "" then s
            else
              { s with
                saved := s.saved ++
                  [{ jurisdiction := cfg.jurisdiction,
                     source := cfg.source,
                     title := if title = "" then url else title,
                     text := content, is_pdf := false, url := url,
                     status_code := some status,
                     content_type := out.contentType }],
                pages_saved := s.pages_saved + 1 }
          if depth < cfg.max_depth then enqueueLinks env cfg url depth links s
          else s

/-- Phase 2.2 of `crawl_generic`: the BFS `while queue and pages_saved <
cfg.max_pages` loop, with explicit fuel (the Python loop terminates because
the reachable URL set is finite; fuel makes every intermediate state the
result of some smaller fuel). -/
def crawlLoop (env : Env) (cfg : CrawlerConfig) : Nat → CrawlState → CrawlState
  | 0, s => s
  | fuel + 1, s =>
    match s.queue with
    | [] => s
    | (url, depth) :: rest =>
      if ¬ s.pages_saved < cfg.max_pages then s
      else
        let s := { s with queue := rest }
        if url ∈ s.visited then crawlLoop env cfg fuel s
        else crawlLoop env cfg fuel (crawlVisit env cfg url depth s)

/-- Model of `crawler_scrapper.crawl_generic`: seed the queue at depth 0, run the
direct-PDF phase, then the budgeted BFS. -/
def crawlGeneric (env : Env) (cfg : CrawlerConfig) (fuel : Nat) : CrawlState :=
  let s0 : CrawlState :=
    { visited := [], queue := cfg.start_urls.map (fun u => (u, 0)),
      saved := [], pages_saved := 0, fetchLog := [] }
  let s1 := cfg.extra_pdf_urls.foldl (processExtraPdf env cfg) s0
  crawlLoop env cfg fuel s1

/-! ## Crawler store (`crawler_scrapper.init_db` / `save_document`)

The `documents` table: `id INTEGER PRIMARY KEY AUTOINCREMENT`, a
`UNIQUE (jurisdiction, url)` constraint, and the payload columns (gathered
in `Doc`; the `fetched_at` timestamp is external). `INSERT OR REPLACE`
first deletes every row conflicting on the unique key, then inserts a fresh
row; the omitted `id` is assigned from the AUTOINCREMENT sequence, which
never reuses a value. Rows are kept in rowid order. -/

structure DocRow where
  id : Nat
  doc : Doc
  deriving DecidableEq, Repr

/-- The unique key `(jurisdiction, url)` of the `documents` table. -/
def docKey (d : Doc) : String × String := (d.jurisdiction, d.url)

structure DocTable where
  rows : List DocRow
  seq : Nat
  deriving DecidableEq, Repr

/-- The table `init_db` creates (SQLite rowids start at 1). -/
def DocTable.empty : DocTable := ⟨[], 1⟩

/-- Model of `crawler_scrapper.save_document`: `INSERT OR REPLACE` keyed on
`(jurisdiction, url)`, with a fresh AUTOINCREMENT id. -/
def saveDocument (t : DocTable) (d : Doc) : DocTable :=
  { rows := t.rows.filter (fun r => decide (docKey r.doc ≠ docKey d)) ++ [⟨t.seq, d⟩],
    seq := t.seq + 1 }

/-- A whole run's writes, in order, applied to a table. -/
def applyDocSaves (t : DocTable) (ds : List Doc) : DocTable :=
  ds.foldl saveDocument t

/-! ## Per-region store (`scrapper.init_db` / `save_regulation`)

The `regulations` table of `scrapper.py`: `id INTEGER PRIMARY KEY
AUTOINCREMENT, title TEXT, source_url TEXT UNIQUE, content TEXT`.
`save_regulation` does `INSERT OR IGNORE`, then, when `content` is not
`None`, an unconditional `UPDATE` of `title` and `content` keyed on
`source_url`. -/

structure RegRow where
  id : Nat
  title : String
  source_url : String
  content : Option String
  deriving DecidableEq, Repr

structure RegTable where
  rows : List RegRow
  seq : Nat
  deriving DecidableEq, Repr

def RegTable.empty : RegTable := ⟨[], 1⟩

/-- The SQL body of `scrapper.save_regulation`, acting on one region's
table. -/
def saveRegulationTable (t : RegTable) (title source_url : String)
    (content : Option String) : RegTable :=
  let t :=
    if t.rows.any (fun r => decide (r.source_url = source_url)) then t
    else { rows := t.rows ++ [⟨t.seq, title, source_url, content⟩],
           seq := t.seq + 1 }
  match content with
  | none => t
  | some _ =>
    { t with
      rows := t.rows.map (fun r =>
        if r.source_url = source_url then
          { r with title := title, content := content }
        else r) }

/-- A whole run's `save_regulation` writes `(title, source_url, content)`,
in order, applied to one region's table. -/
def applyRegSaves (t : RegTable) (ws : List (String × String × Option String)) : RegTable :=
  ws.foldl (fun t w => saveRegulationTable t w.1 w.2.1 w.2.2) t

/-! ## Region dispatch (`utils.get_connection`, `scrapper.save_regulation`) -/

/-- The keys of `DB_PATHS` in
`Data_ingestion_and_sources/functions/utils.py` (and in `search_all.py`). -/
def utilsRegions : List String := ["EU", "USA", "India", "China", "Japan"]

/-- The keys of `DB_PATHS` in `scrapper.py`. -/
def scrapperRegions : List String :=
  ["EU", "USA", "India", "China", "Japan", "France", "UK"]

/-- Model of `utils.get_connection`: unknown region raises
`ValueError(f"Région inconnue : {region} (choix: {list(DB_PATHS)})")`.
The message is modelled with the key and the comma-separated choices
(Python's `repr` quoting of each choice is elided). -/
def getConnection (region : String) : Except String String :=
  if region ∈ utilsRegions then .ok (region ++ ".db")
  else .error ("Région inconnue : " ++ region ++ " (choix: [" ++
               String.intercalate ", " utilsRegions ++ "])")

/-- The `db_path = DB_PATHS[region]` lookup opening
`scrapper.save_regulation`: an unknown region raises `KeyError(region)`,
whose message carries the key alone. -/
def saveRegulationPath (region : String) : Except String String :=
  if region ∈ scrapperRegions then .ok (region ++ ".db") else .error region

/-- Model of `scrapper.save_regulation` with its region dispatch: the `DB_PATHS`
lookup happens first, before any SQL runs. -/
def saveRegulation (region : String) (t : RegTable) (title source_url : String)
    (content : Option String) : Except String RegTable :=
  match saveRegulationPath region with
  | .error e => .error e
  | .ok _ => .ok (saveRegulationTable t title source_url content)

/-! ## Keyword search (`search_all.search_keyword`,
`utils.search_by_keyword`)

SQLite's `LIKE` with pattern `f"%{keyword}%"` is, for a wildcard-free
keyword, ASCII-case-insensitive substring matching; a `NULL` column never
matches. -/

/-- SQL `LIKE` with pattern `%keyword%` on a non-NULL text column. -/
def sqlLike (s keyword : String) : Bool :=
  strMem (strLower s) (strLower keyword)

/-- SQL `LIKE` with pattern `%keyword%` on a nullable text column. -/
def sqlLikeOpt (s : Option String) (keyword : String) : Bool :=
  match s with
  | none => false
  | some s => sqlLike s keyword

/-- The per-region query of `search_all.search_keyword`:
`SELECT id, title, source_url, substr(content, 1, 200) FROM regulations
WHERE title LIKE ? OR content LIKE ? LIMIT 20` over a `scrapper.py`-style
table. There is no `ORDER BY`: rows come back in table-scan (rowid)
order, which for this append-only table is the stored row order. -/
def searchKeyword (t : RegTable) (keyword : String) :
    List (Nat × String × String × Option String) :=
  ((t.rows.filter (fun r =>
      sqlLike r.title keyword || sqlLikeOpt r.content keyword)).take 20).map
    (fun r => (r.id, r.title, r.source_url, r.content.map (fun c => strTake c 200)))

/-- A row of the `regulations` schema `utils.py` queries
(`id, title, source_url, pdf_url, content, retrieved_at`). -/
structure URow where
  id : Nat
  title : Option String
  source_url : Option String
  pdf_url : Option String
  content : Option String
  retrieved_at : Option String
  deriving DecidableEq, Repr

/-- Model of `utils.search_by_keyword`:
`SELECT id, title, source_url, substr(content, 1, 300), retrieved_at FROM
regulations WHERE (title LIKE ? OR content LIKE ?) ORDER BY id` plus
`LIMIT limit` when `limit` is not `None` (default 50). -/
def searchByKeyword (rows : List URow) (keyword : String)
    (limit : Option Nat := some 50) :
    List (Nat × Option String × Option String × Option String × Option String) :=
  let matched := rows.filter (fun r =>
    sqlLikeOpt r.title keyword || sqlLikeOpt r.content keyword)
  let ordered := List.insertionSort (fun a b => a.id ≤ b.id) matched
  let capped := match limit with | none => ordered | some n => ordered.take n
  capped.map (fun r =>
    (r.id, r.title, r.source_url, r.content.map (fun c => strTake c 300),
     r.retrieved_at))

/-! ## Concrete instances

Small closed environments, configurations and tables used to exercise the
model on explicit inputs. -/

/-- A healthy PDF response: 2xx, PDF content type, `%PDF` magic. -/
def pdfOkResponse : Response := ⟨200, "application/pdf", "%PDF-1.4 sample text"⟩

/-- A network with two fetchable direct-PDF documents. -/
def budgetEnv : Env :=
  { net := fun u =>
      if u = "http://docs.example.org/x.pdf" then some pdfOkResponse
      else if u = "http://docs.example.org/y.pdf" then some pdfOkResponse
      else none,
    extractHtml := fun _ => (("", ""), []),
    extractPdf := fun b => b,
    urljoin := fun _ href => href,
    urlScheme := fun _ => "http",
    urlHost := fun _ => "" }

/-- A configuration whose two explicit direct-PDF URLs exceed its page
budget of one. -/
def budgetCfg : CrawlerConfig :=
  { name := "budget", jurisdiction := "X", source := "S",
    start_urls := [], allowed_domains := [],
    max_depth := 1, max_pages := 1,
    extra_pdf_urls := ["http://docs.example.org/x.pdf",
                       "http://docs.example.org/y.pdf"] }

/-- A server that answers a non-`.pdf` URL with an HTML content type but a
body carrying the `%PDF` magic bytes. -/
def magicHtmlNet : String → Option Response := fun u =>
  if u = "http://example.org/doc" then some ⟨200, "text/html", "%PDF-1.4 junk"⟩
  else none

/-- A server that answers a `.pdf`-suffixed URL with an HTML content type
and a body that is not a PDF byte stream. -/
def namedPdfNet : String → Option Response := fun u =>
  if u = "http://example.org/b.pdf" then some ⟨200, "text/html", "just text"⟩
  else none

/-- Drop everything up to and including the first `://`. -/
def afterScheme : List Char → List Char
  | ':' :: '/' :: '/' :: rest => rest
  | _ :: cs => afterScheme cs
  | [] => []

/-- A concrete netloc extractor for the closed environments (the piece of
`urlparse` the crawler consults). -/
def hostOf (u : String) : String :=
  ⟨(afterScheme u.data).takeWhile (fun c => c ≠ '/')⟩

/-- A concrete scheme extractor for the closed environments. -/
def schemeOf (u : String) : String :=
  ⟨u.data.takeWhile (fun c => c ≠ ':')⟩

/-- One HTML page on a host outside the allow-list, linking to one allowed
and one disallowed URL. -/
def seedEnv : Env :=
  { net := fun u =>
      if u = "http://evil.org/a" then some ⟨200, "text/html", "<html>"⟩
      else none,
    extractHtml := fun h =>
      if h = "<html>" then
        (("T", "content here"), ["http://good.com/b", "http://bad.org/c"])
      else (("", ""), []),
    extractPdf := fun b => b,
    urljoin := fun _ href => href,
    urlScheme := schemeOf,
    urlHost := hostOf }

/-- A configuration whose only seed lives outside its own allow-list. -/
def seedCfg : CrawlerConfig :=
  { name := "seed", jurisdiction := "X", source := "S",
    start_urls := ["http://evil.org/a"], allowed_domains := ["good.com"],
    max_depth := 1, max_pages := 10, extra_pdf_urls := [] }

/-- One allowed HTML page with two allowed outbound links. -/
def depthEnv : Env :=
  { seedEnv with
    net := fun u =>
      if u = "http://good.com/a" then some ⟨200, "text/html", "<html>"⟩
      else none,
    extractHtml := fun h =>
      if h = "<html>" then
        (("T", "content"), ["http://good.com/b", "http://good.com/c"])
      else (("", ""), []) }

/-- Budget of one page: the run stops with both discovered links still
queued at depth 1. -/
def depthCfg : CrawlerConfig :=
  { name := "depth", jurisdiction := "X", source := "S",
    start_urls := ["http://good.com/a"], allowed_domains := ["good.com"],
    max_depth := 2, max_pages := 1, extra_pdf_urls := [] }

/-- A server answering 404 with an HTML error page in the body. -/
def notFoundEnv : Env :=
  { seedEnv with
    net := fun u =>
      if u = "http://good.com/missing" then some ⟨404, "text/html", "not found"⟩
      else none }

def notFoundCfg : CrawlerConfig :=
  { name := "nf", jurisdiction := "X", source := "S",
    start_urls := ["http://good.com/missing"], allowed_domains := ["good.com"],
    max_depth := 1, max_pages := 5, extra_pdf_urls := [] }

/-- The BFS state right before the 404 URL is dequeued. -/
def notFoundState : CrawlState :=
  { visited := [], queue := [("http://good.com/missing", 0)],
    saved := [], pages_saved := 0, fetchLog := [] }

/-- The spec scenario table: one row whose content contains "battery pack",
one row without. -/
def scnRegTable : RegTable :=
  ⟨[⟨1, "row one", "http://a.example/1", some "contains a battery pack inside"⟩,
    ⟨2, "row two", "http://a.example/2", some "nothing relevant here"⟩], 3⟩

/-- The same scenario over the `utils.py` row schema. -/
def scnURows : List URow :=
  [⟨1, some "row one", some "http://a.example/1", none,
      some "contains a battery pack inside", none⟩,
   ⟨2, some "row two", some "http://a.example/2", none,
      some "nothing relevant here", none⟩]

/-- First ingestion of a EUR-Lex document: `celex`, `law_id` and `raw_json`
all populated. -/
def docV1 : Doc :=
  { jurisdiction := "EU", source := "EURLEX", celex := some "32018R0858",
    law_id := some "32018R0858", title := "title one", text := "body one",
    raw_json := some "rawjson", is_pdf := false,
    url := "https://eur-lex.europa.eu/doc", content_type := some "text/html",
    status_code := none }

/-- Re-ingestion of the same `(jurisdiction, url)` key with the optional
columns left at their `None` defaults. -/
def docV2 : Doc :=
  { jurisdiction := "EU", source := "NHTSA", title := "title two",
    text := "body two", is_pdf := true,
    url := "https://eur-lex.europa.eu/doc",
    content_type := some "application/pdf", status_code := some 200 }

/-- The crawler-store table after the first ingestion. -/
def tableV1 : DocTable := saveDocument DocTable.empty docV1

/-- The document `crawl_generic` persists for the off-allow-list seed of
`seedCfg` under `seedEnv`. -/
def evilDoc : Doc :=
  { jurisdiction := "X", source := "S", title := "T", text := "content here",
    is_pdf := false, url := "http://evil.org/a",
    content_type := some "text/html", status_code := some 200 }

/-- The keys of the `documents` table, in row order. -/
def docKeys (t : DocTable) : List (String × String) :=
  t.rows.map (fun r => docKey r.doc)

/-- The `source_url` column of a `regulations` table, in row order. -/
def regUrls (t : RegTable) : List String :=
  t.rows.map (fun r => r.source_url)

/-! ## Invariant machinery for the crawler -/

/-- The link loop only appends to the queue, at `depth + 1`, and only URLs
accepted by `should_follow`. -/
theorem enqueueLinks_spec (env : Env) (cfg : CrawlerConfig) (url : String)
    (depth : Nat) :
    ∀ (links : List String) (s : CrawlState), ∃ ext,
      enqueueLinks env cfg url depth links s = { s with queue := s.queue ++ ext } ∧
      ∀ p ∈ ext, p.2 = depth + 1 ∧
        shouldFollow env p.1 cfg.allowed_domains = true := by
  intro links
  induction links with
  | nil => exact fun s => ⟨[], by simp [enqueueLinks], by simp⟩
  | cons href links ih =>
    intro s
    rcases hn : normalizeUrl env url href with _ | new_url
    · obtain ⟨ext, heq, hprop⟩ := ih s
      exact ⟨ext, by simpa [enqueueLinks, List.foldl_cons, hn] using heq, hprop⟩
    · by_cases hf : shouldFollow env new_url cfg.allowed_domains
      · by_cases hv : new_url ∈ s.visited
        · obtain ⟨ext, heq, hprop⟩ := ih s
          exact ⟨ext, by simpa [enqueueLinks, List.foldl_cons, hn, hf, hv] using heq,
                 hprop⟩
        · obtain ⟨ext, heq, hprop⟩ :=
            ih { s with queue := s.queue ++ [(new_url, depth + 1)] }
          refine ⟨(new_url, depth + 1) :: ext, ?_, ?_⟩
          · have : enqueueLinks env cfg url depth (href :: links) s =
                enqueueLinks env cfg url depth links
                  { s with queue := s.queue ++ [(new_url, depth + 1)] } := by
              simp [enqueueLinks, List.foldl_cons, hn, hf, hv]
            rw [this, heq]
            simp
          · intro p hp
            rcases List.mem_cons.mp hp with hp | hp
            · subst hp; exact ⟨rfl, hf⟩
            · exact hprop p hp
      · obtain ⟨ext, heq, hprop⟩ := ih s
        exact ⟨ext, by simpa [enqueueLinks, List.foldl_cons, hn, hf] using heq, hprop⟩

/-- One BFS visit: mark the URL visited, log exactly one fetch, persist at
most one document (carrying the visited URL), and only ever append to the
queue items at `depth + 1` that passed `should_follow`, and that only when
`depth < max_depth`. -/
theorem crawlVisit_spec (env : Env) (cfg : CrawlerConfig) (url : String)
    (depth : Nat) (s : CrawlState) :
    ∃ docs ext,
      crawlVisit env cfg url depth s =
        { visited := url :: s.visited, queue := s.queue ++ ext,
          saved := s.saved ++ docs, pages_saved := s.pages_saved + docs.length,
          fetchLog := s.fetchLog ++ [url] } ∧
      docs.length ≤ 1 ∧ (∀ d ∈ docs, d.url = url) ∧
      ∀ p ∈ ext, p.2 = depth + 1 ∧ depth < cfg.max_depth ∧
        shouldFollow env p.1 cfg.allowed_domains = true := by
  rcases hst : (fetchUrl env.net url).status with _ | status
  · exact ⟨[], [], by simp [crawlVisit, hst], by simp, by simp, by simp⟩
  · rcases hpdf : (fetchUrl env.net url).pdfBytes with _ | pdf_bytes
    · rcases hhtml : (fetchUrl env.net url).htmlText with _ | html
      · exact ⟨[], [], by simp [crawlVisit, hst, hpdf, hhtml], by simp, by simp,
               by simp⟩
      · by_cases h0 : html = ""
        · exact ⟨[], [], by simp [crawlVisit, hst, hpdf, hhtml, h0], by simp,
                 by simp, by simp⟩
        · rcases hex : env.extractHtml html with ⟨⟨title, content⟩, links⟩
          by_cases hd : depth < cfg.max_depth
          · by_cases hc : content = ""
            · obtain ⟨ext, heq, hprop⟩ := enqueueLinks_spec env cfg url depth links
                { s with visited := url :: s.visited,
                         fetchLog := s.fetchLog ++ [url] }
              refine ⟨[], ext, ?_, by simp, by simp, ?_⟩
              · rw [show crawlVisit env cfg url depth s =
                    enqueueLinks env cfg url depth links
                      { s with visited := url :: s.visited,
                               fetchLog := s.fetchLog ++ [url] } by
                    simp [crawlVisit, hst, hpdf, hhtml, h0, hex, hc, hd]]
                rw [heq]
                simp
              · exact fun p hp => ⟨(hprop p hp).1, hd, (hprop p hp).2⟩
            · obtain ⟨ext, heq, hprop⟩ := enqueueLinks_spec env cfg url depth links
                { s with visited := url :: s.visited,
                         fetchLog := s.fetchLog ++ [url],
                         saved := s.saved ++
                           [{ jurisdiction := cfg.jurisdiction,
                              source := cfg.source,
                              title := if title = "" then url else title,
                              text := content, is_pdf := false, url := url,
                              status_code := some status,
                              content_type := (fetchUrl env.net url).contentType }],
                         pages_saved := s.pages_saved + 1 }
              refine ⟨[{ jurisdiction := cfg.jurisdiction, source := cfg.source,
                         title := if title = "" then url else title,
                         text := content, is_pdf := false, url := url,
                         status_code := some status,
                         content_type := (fetchUrl env.net url).contentType }],
                      ext, ?_, by simp, by simp, ?_⟩
              · rw [show crawlVisit env cfg url depth s =
                    enqueueLinks env cfg url depth links
                      { s with visited := url :: s.visited,
                               fetchLog := s.fetchLog ++ [url],
                               saved := s.saved ++
                                 [{ jurisdiction := cfg.jurisdiction,
                                    source := cfg.source,
                                    title := if title = "" then url else title,
                                    text := content, is_pdf := false,
                                    url := url, status_code := some status,
                                    content_type :=
                                      (fetchUrl env.net url).contentType }],
                               pages_saved := s.pages_saved + 1 } by
                    simp [crawlVisit, hst, hpdf, hhtml, h0, hex, hc, hd]]
                rw [heq]
                simp
              · exact fun p hp => ⟨(hprop p hp).1, hd, (hprop p hp).2⟩
          · by_cases hc : content = ""
            · exact ⟨[], [], by simp [crawlVisit, hst, hpdf, hhtml, h0, hex, hc, hd],
                     by simp, by simp, by simp⟩
            · refine ⟨[{ jurisdiction := cfg.jurisdiction, source := cfg.source,
                         title := if title = "" then url else title,
                         text := content, is_pdf := false, url := url,
                         status_code := some status,
                         content_type := (fetchUrl env.net url).contentType }],
                      [], ?_, by simp, by simp, by simp⟩
              simp [crawlVisit, hst, hpdf, hhtml, h0, hex, hc, hd]
    · by_cases ht : env.extractPdf pdf_bytes = ""
      · exact ⟨[], [], by simp [crawlVisit, hst, hpdf, ht], by simp, by simp,
               by simp⟩
      · refine ⟨[{ jurisdiction := cfg.jurisdiction, source := cfg.source,
                   title := lastSegment url, text := env.extractPdf pdf_bytes,
                   is_pdf := true, url := url, status_code := some status,
                   content_type := (fetchUrl env.net url).contentType }],
                [], ?_, by simp, by simp, by simp⟩
        simp [crawlVisit, hst, hpdf, ht]

/-- Invariants of the BFS loop: anything preserved by popping the queue head
and by visiting a fresh URL (both under the budget guard) is preserved by
the whole loop, for every fuel. -/
theorem crawlLoop_invariant (env : Env) (cfg : CrawlerConfig)
    (P : CrawlState → Prop)
    (hpop : ∀ s url depth rest, s.queue = (url, depth) :: rest →
      s.pages_saved < cfg.max_pages → P s → P { s with queue := rest })
    (hvisit : ∀ s url depth rest, s.queue = (url, depth) :: rest →
      s.pages_saved < cfg.max_pages → url ∉ s.visited → P s →
      P (crawlVisit env cfg url depth { s with queue := rest })) :
    ∀ fuel s, P s → P (crawlLoop env cfg fuel s) := by
  intro fuel
  induction fuel with
  | zero => intro s hP; simpa [crawlLoop] using hP
  | succ fuel ih =>
    intro s hP
    rcases hq : s.queue with _ | ⟨⟨url, depth⟩, rest⟩
    · simpa [crawlLoop, hq] using hP
    · by_cases hb : s.pages_saved < cfg.max_pages
      · by_cases hv : url ∈ s.visited
        · have hP' := hpop s url depth rest hq hb hP
          simpa [crawlLoop, hq, hb, hv] using ih _ hP'
        · have hP' := hvisit s url depth rest hq hb hv hP
          simpa [crawlLoop, hq, hb, hv] using ih _ hP'
      · simpa [crawlLoop, hq, hb] using hP

/-- One direct-PDF iteration: either a no-op (already visited), or it marks
the URL visited, logs one fetch, leaves the queue alone, and persists at
most one document carrying that URL — with no budget check. -/
theorem processExtraPdf_spec (env : Env) (cfg : CrawlerConfig) (s : CrawlState)
    (pdf_url : String) :
    processExtraPdf env cfg s pdf_url = s ∨
    (pdf_url ∉ s.visited ∧ ∃ docs : List Doc,
      docs.length ≤ 1 ∧ (∀ d ∈ docs, d.url = pdf_url) ∧
      processExtraPdf env cfg s pdf_url =
        { visited := pdf_url :: s.visited, queue := s.queue,
          saved := s.saved ++ docs, pages_saved := s.pages_saved + docs.length,
          fetchLog := s.fetchLog ++ [pdf_url] }) := by
  by_cases hv : pdf_url ∈ s.visited
  · left; simp [processExtraPdf, hv]
  · right
    refine ⟨hv, ?_⟩
    rcases hb : (fetchUrl env.net pdf_url).pdfBytes with _ | bytes
    · exact ⟨[], by simp, by simp, by simp [processExtraPdf, hv, hb]⟩
    · by_cases h0 : bytes = ""
      · exact ⟨[], by simp, by simp, by simp [processExtraPdf, hv, hb, h0]⟩
      · by_cases ht : env.extractPdf bytes = ""
        · exact ⟨[], by simp, by simp, by simp [processExtraPdf, hv, hb, h0, ht]⟩
        · refine ⟨[{ jurisdiction := cfg.jurisdiction, source := cfg.source,
                     title := lastSegment pdf_url,
                     text := env.extractPdf bytes, is_pdf := true,
                     url := pdf_url,
                     status_code := (fetchUrl env.net pdf_url).status,
                     content_type := (fetchUrl env.net pdf_url).contentType }],
                  by simp, by simp, ?_⟩
          simp [processExtraPdf, hv, hb, h0, ht]

/-- Invariants of the direct-PDF phase. -/
theorem foldExtra_invariant (env : Env) (cfg : CrawlerConfig)
    (P : CrawlState → Prop) :
    ∀ (us : List String) (s : CrawlState),
      (∀ s' u, u ∈ us → P s' → P (processExtraPdf env cfg s' u)) →
      P s → P (us.foldl (processExtraPdf env cfg) s) := by
  intro us
  induction us with
  | nil => intro s _ hP; simpa using hP
  | cons u us ih =>
    intro s h hP
    rw [List.foldl_cons]
    exact ih _ (fun s' v hv => h s' v (List.mem_cons_of_mem _ hv))
      (h s u (List.mem_cons_self _ _) hP)

/-- The direct-PDF phase persists at most one document per configured URL. -/
theorem foldExtra_pages_le (env : Env) (cfg : CrawlerConfig) :
    ∀ (us : List String) (s : CrawlState),
      (us.foldl (processExtraPdf env cfg) s).pages_saved ≤
        s.pages_saved + us.length := by
  intro us
  induction us with
  | nil => intro s; simp
  | cons u us ih =>
    intro s
    rw [List.foldl_cons]
    have h1 : (processExtraPdf env cfg s u).pages_saved ≤ s.pages_saved + 1 := by
      rcases processExtraPdf_spec env cfg s u with h | ⟨_, docs, hlen, _, heq⟩
      · rw [h]; omega
      · rw [heq]; simp; omega
    have h2 := ih (processExtraPdf env cfg s u)
    simp only [List.length_cons]
    omega

/-- The BFS loop never pushes the page counter past `max_pages` (it may
start above it, in which case it does nothing). -/
theorem crawlLoop_pages_le (env : Env) (cfg : CrawlerConfig) (fuel : Nat)
    (s : CrawlState) :
    (crawlLoop env cfg fuel s).pages_saved ≤ max s.pages_saved cfg.max_pages := by
  refine crawlLoop_invariant env cfg
    (fun t => t.pages_saved ≤ max s.pages_saved cfg.max_pages) ?_ ?_ fuel s
    (le_max_left _ _)
  · intro t url depth rest _ _ hP
    simpa using hP
  · intro t url depth rest _ hb _ _
    obtain ⟨docs, ext, heq, hlen, -, -⟩ :=
      crawlVisit_spec env cfg url depth { t with queue := rest }
    rw [heq]
    simp only
    omega

/-- Throughout a run, the `pages_saved` counter equals the number of
persisted documents. -/
theorem crawlGeneric_pages_eq_saved (env : Env) (cfg : CrawlerConfig)
    (fuel : Nat) :
    (crawlGeneric env cfg fuel).pages_saved =
      (crawlGeneric env cfg fuel).saved.length := by
  have hloop := crawlLoop_invariant env cfg
    (fun t => t.pages_saved = t.saved.length)
    (by intro t url depth rest _ _ hP; simpa using hP)
    (by
      intro t url depth rest _ _ _ hP
      obtain ⟨docs, ext, heq, -, -, -⟩ :=
        crawlVisit_spec env cfg url depth { t with queue := rest }
      rw [heq]
      simp only [List.length_append]
      simpa using hP)
  have hextra := foldExtra_invariant env cfg
    (fun t => t.pages_saved = t.saved.length) cfg.extra_pdf_urls
    { visited := [], queue := cfg.start_urls.map (fun u => (u, 0)),
      saved := [], pages_saved := 0, fetchLog := [] }
    (by
      intro t u _ hP
      rcases processExtraPdf_spec env cfg t u with h | ⟨-, docs, -, -, heq⟩
      · rw [h]; exact hP
      · rw [heq]
        simp only [List.length_append]
        simpa using hP)
    rfl
  exact hloop fuel _ hextra

/-- C1 (amended): the direct-PDF phase ignores the budget, so a run
persists at most `max(len(extra_pdf_urls), max_pages)` documents — the BFS
phase alone never pushes the count past `max_pages`. -/
theorem pages_saved_le_max_extra_budget (env : Env) (cfg : CrawlerConfig)
    (fuel : Nat) :
    (crawlGeneric env cfg fuel).pages_saved ≤
      max cfg.extra_pdf_urls.length cfg.max_pages ∧
    (crawlGeneric env cfg fuel).pages_saved =
      (crawlGeneric env cfg fuel).saved.length := by
  refine ⟨?_, crawlGeneric_pages_eq_saved env cfg fuel⟩
  have h1 := foldExtra_pages_le env cfg cfg.extra_pdf_urls
    { visited := [], queue := cfg.start_urls.map (fun u => (u, 0)),
      saved := [], pages_saved := 0, fetchLog := [] }
  have h2 := crawlLoop_pages_le env cfg fuel
    (cfg.extra_pdf_urls.foldl (processExtraPdf env cfg)
      { visited := [], queue := cfg.start_urls.map (fun u => (u, 0)),
        saved := [], pages_saved := 0, fetchLog := [] })
  have h3 : crawlGeneric env cfg fuel =
      crawlLoop env cfg fuel
        (cfg.extra_pdf_urls.foldl (processExtraPdf env cfg)
          { visited := [], queue := cfg.start_urls.map (fun u => (u, 0)),
            saved := [], pages_saved := 0, fetchLog := [] }) := rfl
  rw [h3]
  simp only at h1
  omega

/-- C1 (counterexample): a configuration with two successfully fetched
direct-PDF URLs and `max_pages = 1` persists two documents in one run. -/
theorem extra_pdfs_exceed_budget :
    (crawlGeneric budgetEnv budgetCfg 0).pages_saved = 2 ∧
    (crawlGeneric budgetEnv budgetCfg 0).saved.length = 2 ∧
    budgetCfg.max_pages = 1 := by
  refine ⟨?_, ?_, rfl⟩ <;> rfl

/-- C5: every `(url, depth)` pair in the queue of any (intermediate or
final) state of a `crawl_generic` run has `depth ≤ max_depth`: seeds enter
at 0, and links are enqueued at `depth + 1` only from a page dequeued at
`depth < max_depth`. -/
theorem queued_depth_le_max_depth (env : Env) (cfg : CrawlerConfig)
    (fuel : Nat) (p : String × Nat)
    (hp : p ∈ (crawlGeneric env cfg fuel).queue) : p.2 ≤ cfg.max_depth := by
  have hloop := crawlLoop_invariant env cfg
    (fun t => ∀ q ∈ t.queue, q.2 ≤ cfg.max_depth)
    (by
      intro t url depth rest hq _ hP q hmem
      exact hP q (by rw [hq]; exact List.mem_cons_of_mem _ hmem))
    (by
      intro t url depth rest hq _ _ hP
      obtain ⟨docs, ext, heq, -, -, hext⟩ :=
        crawlVisit_spec env cfg url depth { t with queue := rest }
      rw [heq]
      intro q hmem
      rcases List.mem_append.mp hmem with hmem | hmem
      · exact hP q (by rw [hq]; exact List.mem_cons_of_mem _ hmem)
      · obtain ⟨h1, h2, -⟩ := hext q hmem
        omega)
  have hextra := foldExtra_invariant env cfg
    (fun t => ∀ q ∈ t.queue, q.2 ≤ cfg.max_depth) cfg.extra_pdf_urls
    { visited := [], queue := cfg.start_urls.map (fun u => (u, 0)),
      saved := [], pages_saved := 0, fetchLog := [] }
    (by
      intro t u _ hP
      rcases processExtraPdf_spec env cfg t u with h | ⟨-, docs, -, -, heq⟩
      · rw [h]; exact hP
      · rw [heq]; intro q hmem; exact hP q hmem)
    (by
      intro q hmem
      obtain ⟨u, -, rfl⟩ := List.mem_map.mp hmem
      exact Nat.zero_le _)
  exact hloop fuel _ hextra p hp

/-- C5 (witness): in the one-page-budget run, `("http://good.com/b", 1)`
is still queued when the run stops, and `1 ≤ max_depth = 2`. -/
theorem queued_depth_le_max_depth_witness :
    ("http://good.com/b", (1 : Nat)) ∈ (crawlGeneric depthEnv depthCfg 1).queue ∧
    ("http://good.com/b", (1 : Nat)).2 ≤ depthCfg.max_depth :=
  ⟨by decide,
   queued_depth_le_max_depth depthEnv depthCfg 1 _ (by decide)⟩

/-- C6: within one run, each URL is fetched at most once — the sequence of
URLs passed to `fetch_url`, in call order, has no duplicates (the visited
check at dequeue time guards every fetch). -/
theorem fetch_log_nodup (env : Env) (cfg : CrawlerConfig) (fuel : Nat) :
    (crawlGeneric env cfg fuel).fetchLog.Nodup := by
  have key : ∀ (t : CrawlState) (url : String),
      url ∉ t.visited →
      (t.fetchLog.Nodup ∧ ∀ u ∈ t.fetchLog, u ∈ t.visited) →
      ((t.fetchLog ++ [url]).Nodup ∧
        ∀ u ∈ t.fetchLog ++ [url], u ∈ url :: t.visited) := by
    intro t url hv ⟨hnd, hsub⟩
    constructor
    · rw [List.nodup_append]
      refine ⟨hnd, List.nodup_singleton _, ?_⟩
      intro a ha hb
      rw [List.mem_singleton] at hb
      subst hb
      exact hv (hsub a ha)
    · intro u hu
      rcases List.mem_append.mp hu with hu | hu
      · exact List.mem_cons_of_mem _ (hsub u hu)
      · rw [List.mem_singleton] at hu
        subst hu
        exact List.mem_cons_self _ _
  have hloop := crawlLoop_invariant env cfg
    (fun t => t.fetchLog.Nodup ∧ ∀ u ∈ t.fetchLog, u ∈ t.visited)
    (by intro t url depth rest _ _ hP; simpa using hP)
    (by
      intro t url depth rest _ _ hv hP
      obtain ⟨docs, ext, heq, -, -, -⟩ :=
        crawlVisit_spec env cfg url depth { t with queue := rest }
      rw [heq]
      simpa using key t url hv (by simpa using hP))
  have hextra := foldExtra_invariant env cfg
    (fun t => t.fetchLog.Nodup ∧ ∀ u ∈ t.fetchLog, u ∈ t.visited)
    cfg.extra_pdf_urls
    { visited := [], queue := cfg.start_urls.map (fun u => (u, 0)),
      saved := [], pages_saved := 0, fetchLog := [] }
    (by
      intro t u _ hP
      rcases processExtraPdf_spec env cfg t u with h | ⟨hv, docs, -, -, heq⟩
      · rw [h]; exact hP
      · rw [heq]
        simpa using key t u hv hP)
    (by simp)
  exact (hloop fuel _ hextra).1

/-- C7: a dequeued, unvisited URL whose fetch returns a non-2xx status is
marked visited and logged, but nothing is persisted and no link of it is
enqueued; the loop continues with the remaining queue. -/
theorem non_2xx_skipped (env : Env) (cfg : CrawlerConfig) (fuel : Nat)
    (s : CrawlState) (url : String) (depth : Nat)
    (rest : List (String × Nat)) (resp : Response)
    (hq : s.queue = (url, depth) :: rest)
    (hb : s.pages_saved < cfg.max_pages)
    (hv : url ∉ s.visited)
    (hnet : env.net url = some resp)
    (hst : ¬ (200 ≤ resp.status ∧ resp.status < 300)) :
    crawlVisit env cfg url depth { s with queue := rest } =
      { s with queue := rest, visited := url :: s.visited,
               fetchLog := s.fetchLog ++ [url] } ∧
    crawlLoop env cfg (fuel + 1) s =
      crawlLoop env cfg fuel
        { s with queue := rest, visited := url :: s.visited,
                 fetchLog := s.fetchLog ++ [url] } := by
  have hf : fetchUrl env.net url =
      ⟨none, none, some resp.status, some (strLower resp.contentType)⟩ := by
    simp [fetchUrl, hnet, hst]
  have hvisit : crawlVisit env cfg url depth { s with queue := rest } =
      { s with queue := rest, visited := url :: s.visited,
               fetchLog := s.fetchLog ++ [url] } := by
    simp [crawlVisit, hf]
  refine ⟨hvisit, ?_⟩
  have hstep : crawlLoop env cfg (fuel + 1) s =
      crawlLoop env cfg fuel
        (crawlVisit env cfg url depth { s with queue := rest }) := by
    simp [crawlLoop, hq, hb, hv]
  rw [hstep, hvisit]

/-- C7 (witness): the 404 seed is consumed without persisting anything or
enqueueing links. -/
theorem non_2xx_skipped_witness :
    crawlVisit notFoundEnv notFoundCfg "http://good.com/missing" 0
        { notFoundState with queue := [] } =
      { notFoundState with
        queue := [],
        visited := ["http://good.com/missing"],
        fetchLog := ["http://good.com/missing"] } ∧
    crawlLoop notFoundEnv notFoundCfg 1 notFoundState =
      crawlLoop notFoundEnv notFoundCfg 0
        { notFoundState with
          queue := [],
          visited := ["http://good.com/missing"],
          fetchLog := ["http://good.com/missing"] } := by
  have h := non_2xx_skipped notFoundEnv notFoundCfg 0 notFoundState
    "http://good.com/missing" 0 [] ⟨404, "text/html", "not found"⟩
    rfl (by decide) (by decide) rfl (by decide)
  simpa using h

/-- The predicate `should_follow` accepts exactly the http(s) URLs whose lowercased host
ends with the lowercasing of one of the allowed domain suffixes. -/
theorem shouldFollow_iff (env : Env) (u : String) (doms : List String) :
    shouldFollow env u doms = true ↔
      (strStartsWith (env.urlScheme u) "http" = true ∧
        ∃ d ∈ doms, strEndsWith (strLower (env.urlHost u)) (strLower d) = true) := by
  by_cases h : strStartsWith (env.urlScheme u) "http" = true
  · simp [shouldFollow, h, List.any_eq_true]
  · simp [shouldFollow, h]

/-- C2 (amended): `fetch_url` routes a 2xx body to PDF extraction exactly
when the lowercased `Content-Type` contains `application/pdf` or the URL
ends in `.pdf` (case-insensitively) — the body's own bytes (`%PDF` magic or
not) play no role in the classification. -/
theorem fetch_classification_by_header_or_suffix
    (net : String → Option Response) (url : String) (resp : Response)
    (hnet : net url = some resp)
    (h2 : 200 ≤ resp.status) (h3 : resp.status < 300) :
    ((strMem (strLower resp.contentType) "application/pdf" || isPdfUrl url) = true →
      (fetchUrl net url).pdfBytes = some resp.body ∧
      (fetchUrl net url).htmlText = none) ∧
    ((strMem (strLower resp.contentType) "application/pdf" || isPdfUrl url) = false →
      (fetchUrl net url).htmlText = some resp.body ∧
      (fetchUrl net url).pdfBytes = none) := by
  constructor <;> intro h <;> simp [fetchUrl, hnet, h2, h3, h]

/-- C2 (witness): a `.pdf`-named URL served as `text/html` with a non-PDF
body still goes to the PDF slot. -/
theorem fetch_classification_witness :
    (fetchUrl namedPdfNet "http://example.org/b.pdf").pdfBytes =
      some "just text" ∧
    (fetchUrl namedPdfNet "http://example.org/b.pdf").htmlText = none :=
  (fetch_classification_by_header_or_suffix namedPdfNet
    "http://example.org/b.pdf" ⟨200, "text/html", "just text"⟩
    rfl (by decide) (by decide)).1 (by decide)

/-- C2 (counterexample): a body carrying the `%PDF` magic bytes but served
as `text/html` under a non-`.pdf` URL is routed to the HTML slot, and a
non-PDF body under a `.pdf` URL is routed to the PDF slot. -/
theorem magic_bytes_do_not_drive_routing :
    (strStartsWith "%PDF-1.4 junk" "%PDF" = true ∧
      (fetchUrl magicHtmlNet "http://example.org/doc").htmlText =
        some "%PDF-1.4 junk" ∧
      (fetchUrl magicHtmlNet "http://example.org/doc").pdfBytes = none) ∧
    (strStartsWith "just text" "%PDF" = false ∧
      (fetchUrl namedPdfNet "http://example.org/b.pdf").pdfBytes =
        some "just text") := by
  decide

/-- C4 (amended): every document persisted by a run has a URL that is a
configured seed, a configured direct-PDF URL, or an http(s) URL whose host
ends with one of the allowed domain suffixes — seeds and direct-PDF URLs
are persisted without any allow-list check. -/
theorem persisted_url_seed_extra_or_allowed (env : Env) (cfg : CrawlerConfig)
    (fuel : Nat) (doc : Doc)
    (h : doc ∈ (crawlGeneric env cfg fuel).saved) :
    doc.url ∈ cfg.start_urls ∨ doc.url ∈ cfg.extra_pdf_urls ∨
      (strStartsWith (env.urlScheme doc.url) "http" = true ∧
        ∃ d ∈ cfg.allowed_domains,
          strEndsWith (strLower (env.urlHost doc.url)) (strLower d) = true) := by
  have hloop := crawlLoop_invariant env cfg
    (fun t =>
      (∀ d ∈ t.saved, d.url ∈ cfg.start_urls ∨ d.url ∈ cfg.extra_pdf_urls ∨
        shouldFollow env d.url cfg.allowed_domains = true) ∧
      (∀ q ∈ t.queue, q.1 ∈ cfg.start_urls ∨
        shouldFollow env q.1 cfg.allowed_domains = true))
    (by
      intro t url depth rest hq _ hP
      refine ⟨hP.1, ?_⟩
      intro q hmem
      exact hP.2 q (by rw [hq]; exact List.mem_cons_of_mem _ hmem))
    (by
      intro t url depth rest hq _ _ hP
      obtain ⟨docs, ext, heq, -, hdocs, hext⟩ :=
        crawlVisit_spec env cfg url depth { t with queue := rest }
      rw [heq]
      have hurl : url ∈ cfg.start_urls ∨
          shouldFollow env url cfg.allowed_domains = true :=
        hP.2 (url, depth) (by rw [hq]; exact List.mem_cons_self _ _)
      constructor
      · intro d hd
        rcases List.mem_append.mp hd with hd | hd
        · exact hP.1 d hd
        · rw [hdocs d hd]
          rcases hurl with h1 | h1
          · exact Or.inl h1
          · exact Or.inr (Or.inr h1)
      · intro q hmem
        rcases List.mem_append.mp hmem with hmem | hmem
        · exact hP.2 q (by rw [hq]; exact List.mem_cons_of_mem _ hmem)
        · exact Or.inr (hext q hmem).2.2)
  have hextra := foldExtra_invariant env cfg
    (fun t =>
      (∀ d ∈ t.saved, d.url ∈ cfg.start_urls ∨ d.url ∈ cfg.extra_pdf_urls ∨
        shouldFollow env d.url cfg.allowed_domains = true) ∧
      (∀ q ∈ t.queue, q.1 ∈ cfg.start_urls ∨
        shouldFollow env q.1 cfg.allowed_domains = true))
    cfg.extra_pdf_urls
    { visited := [], queue := cfg.start_urls.map (fun u => (u, 0)),
      saved := [], pages_saved := 0, fetchLog := [] }
    (by
      intro t u hu hP
      rcases processExtraPdf_spec env cfg t u with hsame | ⟨-, docs, -, hdocs, heq⟩
      · rw [hsame]; exact hP
      · rw [heq]
        refine ⟨?_, hP.2⟩
        intro d hd
        rcases List.mem_append.mp hd with hd | hd
        · exact hP.1 d hd
        · rw [hdocs d hd]
          exact Or.inr (Or.inl hu))
    (by
      refine ⟨by simp, ?_⟩
      intro q hmem
      obtain ⟨u, hu, rfl⟩ := List.mem_map.mp hmem
      exact Or.inl hu)
  rcases (hloop fuel _ hextra).1 doc h with h1 | h1 | h1
  · exact Or.inl h1
  · exact Or.inr (Or.inl h1)
  · exact Or.inr (Or.inr ((shouldFollow_iff env doc.url cfg.allowed_domains).mp h1))

/-- C4 (witness): the amended statement applied to the one document the
`seedEnv`/`seedCfg` run persists. -/
theorem persisted_url_seed_extra_or_allowed_witness :
    evilDoc.url ∈ seedCfg.start_urls ∨ evilDoc.url ∈ seedCfg.extra_pdf_urls ∨
      (strStartsWith (seedEnv.urlScheme evilDoc.url) "http" = true ∧
        ∃ d ∈ seedCfg.allowed_domains,
          strEndsWith (strLower (seedEnv.urlHost evilDoc.url)) (strLower d) = true) :=
  persisted_url_seed_extra_or_allowed seedEnv seedCfg 5 evilDoc (by decide)

/-- C4 (counterexample): the run persists exactly the seed document, and
that document's URL host matches no configured allowed-domain suffix. -/
theorem seed_outside_allowlist_persisted :
    (crawlGeneric seedEnv seedCfg 5).saved = [evilDoc] ∧
    (seedCfg.allowed_domains.any (fun d =>
        strEndsWith (strLower (seedEnv.urlHost evilDoc.url)) (strLower d))) =
      false := by
  exact ⟨rfl, rfl⟩

/-! ## Store lemmas -/

/-- When the keys are pairwise distinct and `k` is present, the `REPLACE`
deletion removes exactly one row. -/
theorem length_filter_ne_of_mem :
    ∀ (l : List DocRow) (k : String × String),
      (l.map (fun r => docKey r.doc)).Nodup →
      k ∈ l.map (fun r => docKey r.doc) →
      (l.filter (fun r => decide (docKey r.doc ≠ k))).length + 1 = l.length := by
  intro l
  induction l with
  | nil => intro k _ hk; simp at hk
  | cons r l ih =>
    intro k hnd hk
    simp only [List.map_cons, List.nodup_cons] at hnd
    by_cases hkr : docKey r.doc = k
    · have hfix : l.filter (fun r => decide (docKey r.doc ≠ k)) = l := by
        apply List.filter_eq_self.mpr
        intro x hx
        simp only [decide_eq_true_eq]
        intro hxk
        exact hnd.1 (by rw [hkr, ← hxk]; exact List.mem_map_of_mem _ hx)
      have hpr : (decide (docKey r.doc ≠ k)) = false := by simp [hkr]
      rw [List.filter_cons, hpr]
      simp only [Bool.false_eq_true, if_false]
      rw [hfix]
      simp
    · have hk' : k ∈ l.map (fun r => docKey r.doc) := by
        rcases List.mem_cons.mp hk with h | h
        · exact absurd h.symm hkr
        · exact h
      have hrec := ih k hnd.2 hk'
      have hpr : (decide (docKey r.doc ≠ k)) = true := by simp [hkr]
      rw [List.filter_cons, hpr]
      simp only [if_true, List.length_cons]
      omega

/-- Saving onto an existing key leaves the row count unchanged. -/
theorem saveDocument_length_of_mem {t : DocTable} {d : Doc}
    (hnd : (docKeys t).Nodup) (hk : docKey d ∈ docKeys t) :
    (saveDocument t d).rows.length = t.rows.length := by
  have := length_filter_ne_of_mem t.rows (docKey d) hnd hk
  simp only [saveDocument, List.length_append, List.length_singleton]
  omega

/-- The saved key is present afterwards. -/
theorem mem_docKeys_save_self (t : DocTable) (d : Doc) :
    docKey d ∈ docKeys (saveDocument t d) := by
  simp [docKeys, saveDocument]

/-- Present keys stay present across a save. -/
theorem mem_docKeys_save_of_mem {t : DocTable} {k : String × String} (d : Doc)
    (h : k ∈ docKeys t) : k ∈ docKeys (saveDocument t d) := by
  by_cases hk : k = docKey d
  · subst hk; exact mem_docKeys_save_self t d
  · simp only [docKeys, saveDocument, List.map_append, List.mem_append,
      List.map_cons, List.map_nil, List.mem_singleton]
    left
    obtain ⟨r, hr, hrk⟩ := List.mem_map.mp h
    exact List.mem_map.mpr ⟨r, List.mem_filter.mpr ⟨hr, by simp [hrk, hk]⟩, hrk⟩

/-- A save keeps the keys pairwise distinct. -/
theorem nodup_docKeys_save {t : DocTable} (d : Doc)
    (hnd : (docKeys t).Nodup) : (docKeys (saveDocument t d)).Nodup := by
  simp only [docKeys, saveDocument, List.map_append, List.map_cons,
    List.map_nil]
  rw [List.nodup_append]
  refine ⟨?_, List.nodup_singleton _, ?_⟩
  · exact List.Nodup.sublist
      ((List.filter_sublist t.rows).map (fun r => docKey r.doc)) hnd
  · intro k hk1 hk2
    rw [List.mem_singleton] at hk2
    subst hk2
    obtain ⟨r, hr, hrk⟩ := List.mem_map.mp hk1
    have := (List.mem_filter.mp hr).2
    simp only [decide_eq_true_eq] at this
    exact this hrk

/-- Key distinctness is preserved along a whole run's writes. -/
theorem nodup_docKeys_applyDocSaves :
    ∀ (ds : List Doc) (t : DocTable),
      (docKeys t).Nodup → (docKeys (applyDocSaves t ds)).Nodup := by
  intro ds
  induction ds with
  | nil => intro t h; simpa [applyDocSaves] using h
  | cons d ds ih =>
    intro t h
    rw [show applyDocSaves t (d :: ds) = applyDocSaves (saveDocument t d) ds
        from rfl]
    exact ih _ (nodup_docKeys_save d h)

/-- Present keys stay present along a whole run's writes. -/
theorem mem_docKeys_applyDocSaves :
    ∀ (ds : List Doc) (t : DocTable) (k : String × String),
      k ∈ docKeys t → k ∈ docKeys (applyDocSaves t ds) := by
  intro ds
  induction ds with
  | nil => intro t k h; simpa [applyDocSaves] using h
  | cons d ds ih =>
    intro t k h
    exact ih (saveDocument t d) k (mem_docKeys_save_of_mem d h)

/-- After a run, the key of each written document is in the table. -/
theorem mem_docKeys_applyDocSaves_of_mem_list :
    ∀ (ds : List Doc) (t : DocTable) (d : Doc),
      d ∈ ds → docKey d ∈ docKeys (applyDocSaves t ds) := by
  intro ds
  induction ds with
  | nil => intro t d h; simp at h
  | cons d' ds ih =>
    intro t d h
    rcases List.mem_cons.mp h with h | h
    · subst h
      exact mem_docKeys_applyDocSaves ds (saveDocument t d) _
        (mem_docKeys_save_self t d)
    · exact ih (saveDocument t d') d h

/-- Replaying writes whose keys are all already present changes no row
count. -/
theorem applyDocSaves_length_of_all_mem :
    ∀ (ds : List Doc) (t : DocTable),
      (docKeys t).Nodup → (∀ d ∈ ds, docKey d ∈ docKeys t) →
      (applyDocSaves t ds).rows.length = t.rows.length := by
  intro ds
  induction ds with
  | nil => intro t _ _; rfl
  | cons d ds ih =>
    intro t hnd hall
    have h1 : docKey d ∈ docKeys t := hall d (List.mem_cons_self _ _)
    calc (applyDocSaves t (d :: ds)).rows.length
        = (applyDocSaves (saveDocument t d) ds).rows.length := rfl
      _ = (saveDocument t d).rows.length :=
          ih _ (nodup_docKeys_save d hnd)
            (fun d' hd' => mem_docKeys_save_of_mem d (hall d' (List.mem_cons_of_mem _ hd')))
      _ = t.rows.length := saveDocument_length_of_mem hnd h1

/-- The `UPDATE` of `save_regulation` rewrites `title`/`content` but leaves
every row's `source_url` alone. -/
theorem regUrls_map_update (ti su : String) (c : Option String) :
    ∀ l : List RegRow,
      (l.map (fun r => if r.source_url = su then
          { r with title := ti, content := c } else r)).map
        (fun r => r.source_url) = l.map (fun r => r.source_url) := by
  intro l
  induction l with
  | nil => rfl
  | cons r l ih =>
    by_cases h : r.source_url = su <;> simp [h, ih]

/-- The URL just saved is present afterwards. -/
theorem mem_regUrls_saveReg_self (t : RegTable) (ti su : String)
    (c : Option String) : su ∈ regUrls (saveRegulationTable t ti su c) := by
  cases hany : t.rows.any (fun r => decide (r.source_url = su)) with
  | true =>
    obtain ⟨r, hr, hru⟩ := List.any_eq_true.mp hany
    simp only [decide_eq_true_eq] at hru
    have hmem : su ∈ regUrls t := List.mem_map.mpr ⟨r, hr, hru⟩
    cases c with
    | none => simpa [saveRegulationTable, hany] using hmem
    | some v =>
      simp only [saveRegulationTable, hany, if_true, regUrls]
      rw [regUrls_map_update]
      exact hmem
  | false =>
    cases c with
    | none => simp [saveRegulationTable, hany, regUrls]
    | some v =>
      simp only [saveRegulationTable, hany, Bool.false_eq_true, if_false,
        regUrls]
      rw [regUrls_map_update]
      simp

/-- Present URLs stay present across a save. -/
theorem mem_regUrls_saveReg_of_mem {t : RegTable} {u : String}
    (ti su : String) (c : Option String) (h : u ∈ regUrls t) :
    u ∈ regUrls (saveRegulationTable t ti su c) := by
  cases hany : t.rows.any (fun r => decide (r.source_url = su)) with
  | true =>
    cases c with
    | none => simpa [saveRegulationTable, hany] using h
    | some v =>
      simp only [saveRegulationTable, hany, if_true, regUrls]
      rw [regUrls_map_update]
      exact h
  | false =>
    cases c with
    | none =>
      simp only [saveRegulationTable, hany, Bool.false_eq_true, if_false,
        regUrls, List.map_append, List.mem_append]
      exact Or.inl h
    | some v =>
      simp only [saveRegulationTable, hany, Bool.false_eq_true, if_false,
        regUrls]
      rw [regUrls_map_update]
      simp only [List.map_append, List.mem_append]
      exact Or.inl h

/-- Saving onto a present URL (`INSERT OR IGNORE` + `UPDATE`) leaves the
row count unchanged. -/
theorem saveReg_length_of_mem {t : RegTable} {su : String}
    (ti : String) (c : Option String) (h : su ∈ regUrls t) :
    (saveRegulationTable t ti su c).rows.length = t.rows.length := by
  obtain ⟨r, hr, hru⟩ := List.mem_map.mp h
  have hany : t.rows.any (fun r => decide (r.source_url = su)) = true :=
    List.any_eq_true.mpr ⟨r, hr, by simp [hru]⟩
  cases c with
  | none => simp [saveRegulationTable, hany]
  | some v => simp [saveRegulationTable, hany]

/-- Present URLs stay present along a whole run's writes. -/
theorem mem_regUrls_applyRegSaves :
    ∀ (ws : List (String × String × Option String)) (t : RegTable) (u : String),
      u ∈ regUrls t → u ∈ regUrls (applyRegSaves t ws) := by
  intro ws
  induction ws with
  | nil => intro t u h; simpa [applyRegSaves] using h
  | cons w ws ih =>
    intro t u h
    exact ih _ u (mem_regUrls_saveReg_of_mem w.1 w.2.1 w.2.2 h)

/-- After a run, the URL of each write is in the table. -/
theorem mem_regUrls_applyRegSaves_of_mem_list :
    ∀ (ws : List (String × String × Option String)) (t : RegTable) (w : String × String × Option String),
      w ∈ ws → w.2.1 ∈ regUrls (applyRegSaves t ws) := by
  intro ws
  induction ws with
  | nil => intro t w h; simp at h
  | cons w' ws ih =>
    intro t w h
    rcases List.mem_cons.mp h with h | h
    · subst h
      exact mem_regUrls_applyRegSaves ws _ _
        (mem_regUrls_saveReg_self t w.1 w.2.1 w.2.2)
    · exact ih _ w h

/-- Replaying writes whose URLs are all present changes no row count. -/
theorem applyRegSaves_length_of_all_mem :
    ∀ (ws : List (String × String × Option String)) (t : RegTable),
      (∀ w ∈ ws, w.2.1 ∈ regUrls t) →
      (applyRegSaves t ws).rows.length = t.rows.length := by
  intro ws
  induction ws with
  | nil => intro t _; rfl
  | cons w ws ih =>
    intro t hall
    have h1 : w.2.1 ∈ regUrls t := hall w (List.mem_cons_self _ _)
    calc (applyRegSaves t (w :: ws)).rows.length
        = (applyRegSaves (saveRegulationTable t w.1 w.2.1 w.2.2) ws).rows.length := rfl
      _ = (saveRegulationTable t w.1 w.2.1 w.2.2).rows.length :=
          ih _ (fun w' hw' =>
            mem_regUrls_saveReg_of_mem w.1 w.2.1 w.2.2
              (hall w' (List.mem_cons_of_mem _ hw')))
      _ = t.rows.length := saveReg_length_of_mem w.1 w.2.2 h1

/-- C3: in both store variants the URL key is unique, so replaying the
same sequence of writes (one fixed crawl over static pages) a second time
leaves the row count exactly as after the first run. -/
theorem double_crawl_row_count_idempotent :
    (∀ ds : List Doc,
      (applyDocSaves (applyDocSaves DocTable.empty ds) ds).rows.length =
        (applyDocSaves DocTable.empty ds).rows.length) ∧
    (∀ ws : List (String × String × Option String),
      (applyRegSaves (applyRegSaves RegTable.empty ws) ws).rows.length =
        (applyRegSaves RegTable.empty ws).rows.length) := by
  constructor
  · intro ds
    exact applyDocSaves_length_of_all_mem ds (applyDocSaves DocTable.empty ds)
      (nodup_docKeys_applyDocSaves ds DocTable.empty (by simp [docKeys, DocTable.empty]))
      (fun d hd => mem_docKeys_applyDocSaves_of_mem_list ds DocTable.empty d hd)
  · intro ws
    exact applyRegSaves_length_of_all_mem ws (applyRegSaves RegTable.empty ws)
      (fun w hw => mem_regUrls_applyRegSaves_of_mem_list ws RegTable.empty w hw)

/-- C10: `INSERT OR REPLACE` under `UNIQUE (jurisdiction, url)` replaces
the whole row: the per-key row count stays one (total count unchanged), the
surviving row for the key carries exactly the new column values, and its id
is the freshly assigned sequence value — never the old row's id. -/
theorem insert_or_replace_fresh_id_overwrites (t : DocTable) (r : DocRow)
    (d : Doc)
    (hid : ∀ r' ∈ t.rows, r'.id < t.seq)
    (hnd : (docKeys t).Nodup)
    (hr : r ∈ t.rows)
    (hk : docKey r.doc = docKey d) :
    (saveDocument t d).rows.length = t.rows.length ∧
    (⟨t.seq, d⟩ : DocRow) ∈ (saveDocument t d).rows ∧
    (∀ r' ∈ (saveDocument t d).rows,
      docKey r'.doc = docKey d → r' = ⟨t.seq, d⟩) ∧
    r.id ≠ t.seq := by
  refine ⟨?_, ?_, ?_, ?_⟩
  · exact saveDocument_length_of_mem hnd
      (hk ▸ List.mem_map_of_mem (fun r => docKey r.doc) hr)
  · simp [saveDocument]
  · intro r' hr' hk'
    rcases List.mem_append.mp hr' with hmem | hmem
    · have := (List.mem_filter.mp hmem).2
      simp only [decide_eq_true_eq] at this
      exact absurd hk' this
    · simpa using hmem
  · exact Nat.ne_of_lt (hid r hr)

/-- C10 (witness): re-saving the EUR-Lex document's key with defaulted
optional columns keeps one row, assigns id 2 (not the old id 1), and
overwrites every column. -/
theorem insert_or_replace_witness :
    (saveDocument tableV1 docV2).rows.length = tableV1.rows.length ∧
    (⟨tableV1.seq, docV2⟩ : DocRow) ∈ (saveDocument tableV1 docV2).rows ∧
    (∀ r' ∈ (saveDocument tableV1 docV2).rows,
      docKey r'.doc = docKey docV2 → r' = ⟨tableV1.seq, docV2⟩) ∧
    (⟨1, docV1⟩ : DocRow).id ≠ tableV1.seq :=
  insert_or_replace_fresh_id_overwrites tableV1 ⟨1, docV1⟩ docV2
    (by decide) (by decide) (by decide) (by decide)

/-! ## Substring lemmas for the error messages -/

theorem str_data_append (s t : String) : (s ++ t).data = s.data ++ t.data := rfl

theorem str_eq_of_data {s t : String} (h : s.data = t.data) : s = t := by
  cases s; cases t; exact congrArg String.mk h

theorem listOccurs_of_starts {s pat : List Char}
    (h : listStarts s pat = true) : listOccurs s pat = true := by
  cases s with
  | nil => simpa [listOccurs] using h
  | cons c cs => simp [listOccurs, h]

theorem listStarts_append (pat rest : List Char) :
    listStarts (pat ++ rest) pat = true := by
  induction pat with
  | nil => cases rest <;> simp [listStarts]
  | cons b p ih => simp [listStarts, ih]

theorem listOccurs_append_left (a : List Char) {s pat : List Char}
    (h : listOccurs s pat = true) : listOccurs (a ++ s) pat = true := by
  induction a with
  | nil => simpa using h
  | cons c cs ih => simp [listOccurs, ih]

/-- A pattern occurs in any string it prefixes. -/
theorem strMem_of_starts (pat t : String) : strMem (pat ++ t) pat = true := by
  unfold strMem
  rw [show (pat ++ t).toList = pat.toList ++ t.toList from rfl]
  exact listOccurs_of_starts (listStarts_append _ _)

/-- Occurrence in the right part survives prepending. -/
theorem strMem_append_right (s t pat : String) (h : strMem t pat = true) :
    strMem (s ++ t) pat = true := by
  unfold strMem at *
  rw [show (s ++ t).toList = s.toList ++ t.toList from rfl]
  exact listOccurs_append_left _ h

/-- C8: keyword search is substring (`LIKE '%kw%'`) matching over the
`title` and `content` columns; `search_all.search_keyword` caps at 20 rows
and returns them in stored (rowid) order, `utils.search_by_keyword` caps at
its `limit` (default 50) and orders by id; on the spec scenario table both
return exactly the one matching row. -/
theorem keyword_search_contract :
    (∀ (t : RegTable) (kw : String), (searchKeyword t kw).length ≤ 20) ∧
    (∀ (rows : List URow) (kw : String),
      (searchByKeyword rows kw (some 50)).length ≤ 50) ∧
    (∀ (rows : List URow) (kw : String) (n : Nat),
      List.Pairwise (fun a b => a.1 ≤ b.1) (searchByKeyword rows kw (some n))) ∧
    (∀ (t : RegTable) (kw : String),
      List.Pairwise (fun a b : RegRow => a.id ≤ b.id) t.rows →
      List.Pairwise (fun a b => a.1 ≤ b.1) (searchKeyword t kw)) ∧
    (searchKeyword scnRegTable "battery" =
      [(1, "row one", "http://a.example/1",
        some "contains a battery pack inside")]) ∧
    (searchByKeyword scnURows "battery" (some 50) =
      [(1, some "row one", some "http://a.example/1",
        some "contains a battery pack inside", none)]) := by
  refine ⟨?_, ?_, ?_, ?_, by decide, by decide⟩
  · intro t kw
    simp only [searchKeyword, List.length_map, List.length_take]
    exact Nat.min_le_left _ _
  · intro rows kw
    simp only [searchByKeyword, List.length_map, List.length_take]
    exact Nat.min_le_left _ _
  · intro rows kw n
    haveI : IsTotal URow (fun a b => a.id ≤ b.id) :=
      ⟨fun a b => Nat.le_total a.id b.id⟩
    haveI : IsTrans URow (fun a b => a.id ≤ b.id) :=
      ⟨fun a b c => Nat.le_trans⟩
    have hs : List.Pairwise (fun a b : URow => a.id ≤ b.id)
        (List.insertionSort (fun a b => a.id ≤ b.id)
          (rows.filter (fun r =>
            sqlLikeOpt r.title kw || sqlLikeOpt r.content kw))) :=
      List.sorted_insertionSort (fun a b : URow => a.id ≤ b.id)
        (rows.filter (fun r => sqlLikeOpt r.title kw || sqlLikeOpt r.content kw))
    have hcap := List.Pairwise.sublist
      (List.take_sublist n (List.insertionSort (fun a b => a.id ≤ b.id)
        (rows.filter (fun r => sqlLikeOpt r.title kw || sqlLikeOpt r.content kw))))
      hs
    simp only [searchByKeyword]
    rw [List.pairwise_map]
    exact hcap
  · intro t kw h
    have hfil := List.Pairwise.filter
      (fun r => sqlLike r.title kw || sqlLikeOpt r.content kw) h
    have hcap := List.Pairwise.sublist
      (List.take_sublist 20
        (t.rows.filter (fun r => sqlLike r.title kw || sqlLikeOpt r.content kw)))
      hfil
    simp only [searchKeyword]
    rw [List.pairwise_map]
    exact hcap

/-- C8 (witness): the ordering clause applied to the concrete scenario
table, whose rows are stored in id order. -/
theorem keyword_search_contract_witness :
    List.Pairwise (fun a b => a.1 ≤ b.1) (searchKeyword scnRegTable "battery") :=
  keyword_search_contract.2.2.2.1 scnRegTable "battery" (by decide)

/-- C9 (amended): store operations reached through `utils.get_connection`
fail fast on an unknown region with a `ValueError` whose message names the
key and lists every valid choice; `scrapper.save_regulation` fails fast too
(before any SQL), but with a bare `KeyError` naming only the invalid key. -/
theorem region_dispatch_errors (region : String) :
    (region ∉ utilsRegions →
      getConnection region = Except.error
        ("Région inconnue : " ++ region ++ " (choix: [" ++
          String.intercalate ", " utilsRegions ++ "])") ∧
      strMem ("Région inconnue : " ++ region ++ " (choix: [" ++
          String.intercalate ", " utilsRegions ++ "])") region = true ∧
      ∀ choice ∈ utilsRegions,
        strMem ("Région inconnue : " ++ region ++ " (choix: [" ++
          String.intercalate ", " utilsRegions ++ "])") choice = true) ∧
    (region ∉ scrapperRegions →
      ∀ (t : RegTable) (ti su : String) (c : Option String),
        saveRegulation region t ti su c = Except.error region) := by
  constructor
  · intro h
    have hmsg1 : ("Région inconnue : " ++ region ++ " (choix: [" ++
        String.intercalate ", " utilsRegions ++ "])") =
        "Région inconnue : " ++ (region ++ (" (choix: [" ++
          String.intercalate ", " utilsRegions ++ "])")) := by
      apply str_eq_of_data
      simp [str_data_append, List.append_assoc]
    have hmsg2 : ("Région inconnue : " ++ region ++ " (choix: [" ++
        String.intercalate ", " utilsRegions ++ "])") =
        ("Région inconnue : " ++ region ++ " (choix: [") ++
          (String.intercalate ", " utilsRegions ++ "])") := by
      apply str_eq_of_data
      simp [str_data_append, List.append_assoc]
    refine ⟨by simp [getConnection, h], ?_, ?_⟩
    · rw [hmsg1]
      exact strMem_append_right _ _ _ (strMem_of_starts region _)
    · intro choice hc
      rw [hmsg2]
      apply strMem_append_right
      have htail : (String.intercalate ", " utilsRegions ++ "])") =
          "EU, USA, India, China, Japan])" := by decide
      rw [htail]
      fin_cases hc <;> decide
  · intro h t ti su c
    simp [saveRegulation, saveRegulationPath, h]

/-- C9 (witness): the dispatch behaviour at the concrete unknown region
`"Mars"`. -/
theorem region_dispatch_errors_witness :
    (getConnection "Mars" = Except.error
        ("Région inconnue : " ++ "Mars" ++ " (choix: [" ++
          String.intercalate ", " utilsRegions ++ "])") ∧
      strMem ("Région inconnue : " ++ "Mars" ++ " (choix: [" ++
          String.intercalate ", " utilsRegions ++ "])") "Mars" = true ∧
      ∀ choice ∈ utilsRegions,
        strMem ("Région inconnue : " ++ "Mars" ++ " (choix: [" ++
          String.intercalate ", " utilsRegions ++ "])") choice = true) ∧
    saveRegulation "Mars" RegTable.empty "t" "u" none = Except.error "Mars" :=
  ⟨(region_dispatch_errors "Mars").1 (by decide),
   (region_dispatch_errors "Mars").2 (by decide) RegTable.empty "t" "u" none⟩

/-- C9 (counterexample): `save_regulation` is a store operation, and on the
unknown region `"Mars"` its error carries only the key — it does not
mention a single valid region choice. -/
theorem save_regulation_keyerror_no_choices :
    saveRegulation "Mars" RegTable.empty "t" "u" none = Except.error "Mars" ∧
    (∀ choice ∈ scrapperRegions, strMem "Mars" choice = false) := by
  exact ⟨rfl, by decide⟩

end RegGPS
